import Mathlib

/-!
Shallow embedding of the timestep core of MP-Gadget (`timestep.c`):
the integer-timeline helpers, the time-bin machinery, the kick engine
and the synchronizer, together with proofs about them.

Machine doubles are modelled as rationals.  The real-valued external
collaborators that live outside `timestep.c` (`get_gravkick_factor`,
`get_hydrokick_factor`, `dloga_from_dti`, `get_dloga_for_bin`) and the
irrational C library functions (`sqrt`, `pow`) enter as oracle fields of
a context structure `Ctx`: none of the properties proved here depend on
their values.  C `while` loops are translated with an explicit fuel
argument that provably suffices, so that every definition is executable
by the kernel.
-/

namespace MPGadget

/-- Translation of `get_kick_ti(start, step) = start + step/2`
(timestep.c:29-32), integer division as in C. -/
def get_kick_ti (start step : ℕ) : ℕ := start + step / 2

/-- Fuel-indexed translation of the loop
`while(dti) { bin++; dti >>= 1; }` inside `get_timestep_bin`
(timestep.c:669-673).  Fuel `dti` suffices because `dti/2 < dti`
whenever `dti > 0`. -/
def timestep_bin_go : ℕ → ℕ → ℤ → ℤ
  | 0, _, bin => bin
  | fuel + 1, dti, bin =>
      if dti = 0 then bin else timestep_bin_go fuel (dti / 2) (bin + 1)

/-- Translation of `get_timestep_bin` (timestep.c:657-676): `0 ↦ 0`,
`1 ↦ -1`, and otherwise the index of the highest set bit. -/
def get_timestep_bin (dti : ℕ) : ℤ :=
  if dti = 0 then 0
  else if dti = 1 then -1
  else timestep_bin_go dti dti (-1)

/-- Fuel-indexed floor of `log2` (fuel `n` suffices). -/
def log2_go : ℕ → ℕ → ℕ
  | 0, _ => 0
  | fuel + 1, n => if n < 2 then 0 else log2_go fuel (n / 2) + 1

/-- Executable floor of `log2`, with `log2floor 0 = 0`. -/
def log2floor (n : ℕ) : ℕ := log2_go n n

/-- Modelled from the spec: `round_down_power_of_two` (declared in the
repository outside this file) rounds a tick count down to a power of
two, `dti ← 2^floor(log2(dti))`; `0` stays `0`. -/
def round_down_power_of_two (x : ℕ) : ℕ :=
  if x = 0 then 0 else 2 ^ log2floor x

/-- Fuel-indexed translation of the downward walk
`while(TimeBinActive[bin] == 0 && bin > binold) bin--;`
(timestep.c:208-209).  Fuel `(bin - binold).toNat` suffices. -/
def walk_down_go : ℕ → (ℤ → Bool) → ℤ → ℤ → ℤ
  | 0, _, _, bin => bin
  | fuel + 1, active, binold, bin =>
      if active bin = false ∧ binold < bin then
        walk_down_go fuel active binold (bin - 1)
      else bin

/-- The upward-movement guard of `advance_and_find_timesteps`
(timestep.c:204-212): walk the candidate bin downward until it is
active or equal to the old bin. -/
def walk_down (active : ℤ → Bool) (binold bin : ℤ) : ℤ :=
  walk_down_go (bin - binold).toNat active binold bin

/-- The step expression `bin ? (1 << bin) : 0` — the integer step size
of a time bin (bin 0 has step 0). -/
def dtiOfBin (b : ℤ) : ℕ := if b = 0 then 0 else 2 ^ b.toNat

/-- Bin/step selection for one particle inside
`advance_and_find_timesteps` (timestep.c:194-212): power-of-two
rounding of the raw step, the candidate bin, and the upward-movement
guard (after which the step is recomputed as `bin ? (1 << bin) : 0`). -/
def new_bin_dti (active : ℤ → Bool) (binold : ℤ) (dtiRaw : ℕ) : ℤ × ℕ :=
  let dti0 := round_down_power_of_two dtiRaw
  let bin0 := get_timestep_bin dti0
  if binold < bin0 then
    let b := walk_down active binold bin0
    (b, dtiOfBin b)
  else
    (bin0, dti0)

/-- Per-particle body of the kick loop of `advance_and_find_timesteps`
(timestep.c:194-243): returns the new bin, the kick interval
`(tistart, tiend)` handed to `do_the_short_range_kick`, and the
advanced `Ti_begstep`.  `dtiRaw` is the raw step from
`get_timestep_ti` (or the equalized global minimum). -/
def advance_particle (active : ℤ → Bool) (doHalfKick : Bool) (dtiRaw : ℕ)
    (binold : ℤ) (tibeg : ℕ) : ℤ × ℕ × ℕ × ℕ :=
  let bd := new_bin_dti active binold dtiRaw
  let dtiOld := dtiOfBin binold
  let tistart := get_kick_ti tibeg dtiOld
  let tiend := if doHalfKick then tibeg + dtiOld
               else get_kick_ti (tibeg + dtiOld) bd.2
  (bd.1, tistart, tiend, tibeg + dtiOld)

/-- Three-vectors of rationals (modelling C `double[3]`). -/
abbrev Vec3 : Type := ℚ × ℚ × ℚ

def vadd (a b : Vec3) : Vec3 := (a.1 + b.1, a.2.1 + b.2.1, a.2.2 + b.2.2)

def vscale (c : ℚ) (v : Vec3) : Vec3 := (c * v.1, c * v.2.1, c * v.2.2)

/-- Squared Euclidean norm (`vv` before the `sqrt` at timestep.c:352). -/
def sqnorm (v : Vec3) : ℚ := v.1 * v.1 + v.2.1 * v.2.1 + v.2.2 * v.2.2

/-- The per-particle fields of `particle_data`/`sph_particle_data` that
the timestep core reads and writes. -/
structure Particle where
  ptype : ℕ
  Vel : Vec3
  GravAccel : Vec3
  GravPM : Vec3
  HydroAccel : Vec3
  TimeBin : ℤ
  Ti_begstep : ℕ
  Entropy : ℚ
  DtEntropy : ℚ
  EOMDensity : ℚ
deriving DecidableEq

/-- Oracle context for the external collaborators of `timestep.c`
(`timefac.c` kick factors and timeline conversions, global `All.*`
parameters, and the C library `sqrt`/`pow`, which are irrational). -/
structure Ctx where
  gravkick : ℕ → ℕ → ℚ
  hydrokick : ℕ → ℕ → ℚ
  dloga_from_dti : ℕ → ℚ
  dloga_for_bin : ℤ → ℚ
  sqrtQ : ℚ → ℚ
  powQ : ℚ → ℚ → ℚ
  a3inv : ℚ
  MaxGasVel : ℚ
  MinEgySpec : ℚ
  gamma_minus1 : ℚ

/-- The guarded entropy update of `do_the_short_range_kick`
(timestep.c:365-368): the entropy may not fall by more than a factor
one half in one kick. -/
def ent_halfstep (E D dt_entr : ℚ) : ℚ :=
  if D * dt_entr < -(1/2) * E then E * (1/2) else E + D * dt_entr

/-- The entropy floor of `do_the_short_range_kick`
(timestep.c:370-379): when `MinEgySpec` is set and the entropy is below
the floor, raise it to the floor and zero the rate. -/
def ent_floor (ctx : Ctx) (eomd E D : ℚ) : ℚ × ℚ :=
  if ctx.MinEgySpec ≠ 0 then
    let minentropy :=
      ctx.MinEgySpec * ctx.gamma_minus1 / ctx.powQ (eomd * ctx.a3inv) ctx.gamma_minus1
    if E < minentropy then (minentropy, (0 : ℚ)) else (E, D)
  else (E, D)

/-- The look-ahead clamp of `do_the_short_range_kick`
(timestep.c:381-386): bound the entropy rate of the next half step so
the gas does not overcool. -/
def ent_clamp (dt_entr_next E D : ℚ) : ℚ × ℚ :=
  if D * dt_entr_next < -(1/2) * E then (E, -(1/2) * E / dt_entr_next) else (E, D)

/-- The entropy / entropy-rate section of `do_the_short_range_kick`
(timestep.c:361-387), assembled from its three stages.  Returns the new
`(Entropy, DtEntropy)`. -/
def kick_entropy (ctx : Ctx) (dt_entr : ℚ) (bin : ℤ) (E D eomd : ℚ) : ℚ × ℚ :=
  let ent1 := ent_halfstep E D dt_entr
  let ed := ent_floor ctx eomd ent1 D
  ent_clamp (ctx.dloga_for_bin bin / 2) ed.1 ed.2

/-- Translation of `do_the_short_range_kick` (timestep.c:317-389): gravity kick for
all types; for gas (type 0) additionally the hydro kick, the velocity
cap, and the entropy section `kick_entropy`. -/
def do_the_short_range_kick (ctx : Ctx) (tistart tiend : ℕ) (p : Particle) : Particle :=
  let Fgravkick := ctx.gravkick tistart tiend
  let vel1 := vadd p.Vel (vscale Fgravkick p.GravAccel)
  if p.ptype = 0 then
    let Fhydrokick := ctx.hydrokick tistart tiend
    let dt_entr := ctx.dloga_from_dti (tiend - tistart)
    let vel2 := vadd vel1 (vscale Fhydrokick p.HydroAccel)
    let velfac := ctx.sqrtQ ctx.a3inv
    let vv := ctx.sqrtQ (sqnorm vel2)
    let vel3 := if ctx.MaxGasVel * velfac < vv then
        vscale (ctx.MaxGasVel * velfac / vv) vel2
      else vel2
    let ed := kick_entropy ctx dt_entr p.TimeBin p.Entropy p.DtEntropy p.EOMDensity
    { p with Vel := vel3, Entropy := ed.1, DtEntropy := ed.2 }
  else
    { p with Vel := vel1 }

/-- Translation of `get_short_kick_time` (timestep.c:391-399): the midpoint of the
particle's current step, with step `bin ? (1 << bin) : 0`. -/
def get_short_kick_time (p : Particle) : ℕ :=
  get_kick_ti p.Ti_begstep (dtiOfBin p.TimeBin)

/-- Translation of `do_the_long_range_kick` (timestep.c:302-315): kick every particle
(not only active ones) by its PM acceleration. -/
def do_the_long_range_kick (ctx : Ctx) (tistart tiend : ℕ) (ps : List Particle) :
    List Particle :=
  let F := ctx.gravkick tistart tiend
  ps.map fun p => { p with Vel := vadd p.Vel (vscale F p.GravPM) }

/-- State touched by `apply_half_kick`: the particle table, the active
list, and the PM super-step `(PM_Ti.start, PM_Ti.step)`. -/
structure SimState where
  particles : List Particle
  activeList : List ℕ
  PM_start : ℕ
  PM_step : ℕ

/-- One iteration of the active-particle loop of `apply_half_kick`
(timestep.c:282-293), instrumented with the `(tistart, tiend)` interval
that is passed to `do_the_short_range_kick`. -/
def half_kick_step (ctx : Ctx) (acc : List Particle × List (ℕ × ℕ)) (i : ℕ) :
    List Particle × List (ℕ × ℕ) :=
  match acc.1[i]? with
  | none => acc
  | some p =>
      let tistart := p.Ti_begstep
      let tiend := get_kick_ti p.Ti_begstep (dtiOfBin p.TimeBin)
      (acc.1.set i (do_the_short_range_kick ctx tistart tiend p),
       acc.2 ++ [(tistart, tiend)])

/-- Translation of `apply_half_kick` (timestep.c:276-300), instrumented with the kick
intervals it passes to the short-range kicks (one per active particle)
and to the long-range kick. -/
def apply_half_kick (ctx : Ctx) (st : SimState) :
    SimState × List (ℕ × ℕ) × (ℕ × ℕ) :=
  let r := st.activeList.foldl (half_kick_step ctx) (st.particles, [])
  let tistart := st.PM_start
  let tiend := get_kick_ti st.PM_start st.PM_step
  ({ particles := do_the_long_range_kick ctx tistart tiend r.1,
     activeList := st.activeList, PM_start := st.PM_start, PM_step := st.PM_step },
   r.2, (tistart, tiend))

/-- The half-kick interval as the spec describes it:
`[Ti_begstep, get_kick_ti(Ti_begstep, 2^TimeBin))` for the particle at
index `i`. -/
def half_kick_claimed (ps : List Particle) (i : ℕ) : ℕ × ℕ :=
  match ps[i]? with
  | some p => (p.Ti_begstep, get_kick_ti p.Ti_begstep (2 ^ p.TimeBin.toNat))
  | none => (0, 0)

/-- Pointwise bump of a counter array at index `i` by `d` — the shallow
form of `atomic_fetch_and_add(&arr[i], d)`. -/
def updateAt (f : ℤ → ℤ) (i : ℤ) (d : ℤ) : ℤ → ℤ :=
  fun b => if b = i then f b + d else f b

/-- The bin-registry state rebuilt by `rebuild_activelist`:
`TimeBinCount`, `TimeBinCountType` and `ActiveParticle`. -/
structure BinRegistry where
  cnt : ℤ → ℤ
  cntT : ℕ → ℤ → ℤ
  act : List ℕ

/-- One iteration of the particle loop of `rebuild_activelist`
(timestep.c:741-752): count the particle into its bin (globally and
per type) and append it to the active list when its bin is active. -/
def rebuild_step (activeB : ℤ → Bool) (r : BinRegistry) (i : ℕ) (p : Particle) :
    BinRegistry :=
  { cnt := updateAt r.cnt p.TimeBin 1,
    cntT := fun t => if t = p.ptype then updateAt (r.cntT t) p.TimeBin 1 else r.cntT t,
    act := if activeB p.TimeBin then r.act ++ [i] else r.act }

/-- The particle loop of `rebuild_activelist` with an explicit running
index. -/
def rebuild_go (activeB : ℤ → Bool) : ℕ → List Particle → BinRegistry → BinRegistry
  | _, [], r => r
  | i, p :: t, r => rebuild_go activeB (i + 1) t (rebuild_step activeB r i p)

/-- Translation of `rebuild_activelist` (timestep.c:727-753): zero all counters, then
count every particle. -/
def rebuild_activelist (activeB : ℤ → Bool) (ps : List Particle) : BinRegistry :=
  rebuild_go activeB 0 ps ⟨fun _ => 0, fun _ _ => 0, []⟩

/-- The bin-migration counter updates of `advance_and_find_timesteps`
(timestep.c:221-225): decrement the old bin and increment the new one,
for the global and the per-type counters. -/
def migrate_counts (cnt : ℤ → ℤ) (cntT : ℕ → ℤ → ℤ) (ty : ℕ) (bold bnew : ℤ) :
    (ℤ → ℤ) × (ℕ → ℤ → ℤ) :=
  (updateAt (updateAt cnt bold (-1)) bnew 1,
   fun t => if t = ty then updateAt (updateAt (cntT t) bold (-1)) bnew 1 else cntT t)

/-- Modelled from the spec: `dti_from_dloga` (declared in `timefac.c`,
outside this file) inverts the affine map
`dloga = dloga_total * dti / TIMEBASE`. -/
def dti_from_dloga (dlogaTotal : ℚ) (timebase : ℕ) (dloga : ℚ) : ℕ :=
  (⌊dloga * timebase / dlogaTotal⌋).toNat

/-- Translation of `get_timestep_ti` (timestep.c:503-557).  The physical step of the
particle, `get_timestep_dloga(p)`, enters as the value `dlogaP`, and
the external tick conversion as `fdti`; the bad-step diagnostic
message (timestep.c:528-554) does not change the returned value. -/
def get_timestep_ti (TreeGravOn : Bool) (MinSizeTimestep : ℚ) (fdti : ℚ → ℕ)
    (dlogaP : ℚ) (dtiMax : ℕ) : ℕ :=
  if dtiMax = 0 then 0
  else if TreeGravOn = false then dtiMax
  else
    let dloga := if dlogaP < MinSizeTimestep then MinSizeTimestep else dlogaP
    let dti := fdti dloga
    if dtiMax < dti then dtiMax else dti

/-- The candidate `(Ti_Current / dt_bin) * dt_bin + dt_bin` — the next kick time of
bin `n` (timestep.c:785). -/
def next_for_bin (low n : ℕ) : ℕ := low / 2 ^ n * 2 ^ n + 2 ^ n

/-- One iteration of the bin loop of `find_next_kick`
(timestep.c:778-788). -/
def next_kick_step (count : ℕ → ℤ) (low acc n : ℕ) : ℕ :=
  if count n ≠ 0 then
    if next_for_bin low n < acc then next_for_bin low n else acc
  else acc

/-- The local (pre-`MPI_Allreduce`) part of `find_next_kick`
(timestep.c:763-791), with `TIMEBASE = 2^tb`; the C bit masks
`& ~(TIMEBASE-1)` and `& (TIMEBASE-1)` are division and remainder by
`2^tb`.  Note that the bin-0 seed (timestep.c:768-769) uses the
unmasked `Ti_Current`, before the snapshot bits are removed. -/
def find_next_kick_local (tb timebins : ℕ) (count : ℕ → ℤ) (TiCurrent : ℕ) : ℕ :=
  let base := 2 ^ tb
  let seed := if count 0 ≠ 0 then TiCurrent else base
  let snap := TiCurrent / base * base
  let low := TiCurrent % base
  (List.range' 1 (timebins - 1)).foldl (next_kick_step count low) seed + snap

/-- A bin-population table with only bin 0 populated. -/
def count_bin0 : ℕ → ℤ := fun n => if n = 0 then 1 else 0

/-- A concrete oracle context: all kick factors and conversions zero,
except that bin step `dloga_for_bin` is `2` (so the look-ahead
half-step `dt_entr_next` is `1`). -/
def ctxA : Ctx :=
  { gravkick := fun _ _ => 0, hydrokick := fun _ _ => 0,
    dloga_from_dti := fun _ => 0, dloga_for_bin := fun _ => 2,
    sqrtQ := fun _ => 0, powQ := fun _ _ => 1,
    a3inv := 1, MaxGasVel := 0, MinEgySpec := 0, gamma_minus1 := 2/3 }

/-- A concrete gas particle with a large positive entropy rate. -/
def gasHeating : Particle :=
  { ptype := 0, Vel := (0, 0, 0), GravAccel := (0, 0, 0), GravPM := (0, 0, 0),
    HydroAccel := (0, 0, 0), TimeBin := 2, Ti_begstep := 0,
    Entropy := 1, DtEntropy := 100, EOMDensity := 1 }

/-- A concrete gas particle with a large negative (cooling) entropy
rate. -/
def gasCooling : Particle :=
  { ptype := 0, Vel := (0, 0, 0), GravAccel := (0, 0, 0), GravPM := (0, 0, 0),
    HydroAccel := (0, 0, 0), TimeBin := 2, Ti_begstep := 0,
    Entropy := 1, DtEntropy := -100, EOMDensity := 1 }

/-- A concrete collisionless particle in bin 3. -/
def dmParticle : Particle :=
  { ptype := 1, Vel := (0, 0, 0), GravAccel := (0, 0, 0), GravPM := (0, 0, 0),
    HydroAccel := (0, 0, 0), TimeBin := 3, Ti_begstep := 64,
    Entropy := 0, DtEntropy := 0, EOMDensity := 0 }

/-- The spec-modelled tick conversion at `dloga_total = 1`,
`TIMEBASE = 2^29`. -/
def fdti29 : ℚ → ℕ := dti_from_dloga 1 (2 ^ 29)

/-- A concrete two-particle table (bins 1 and 2, types 0 and 1). -/
def psTwo : List Particle :=
  [{ gasHeating with TimeBin := 1 }, { dmParticle with TimeBin := 2 }]

/-- A concrete `TimeBinCount` with one particle in bin 1. -/
def cntOne : ℤ → ℤ := fun b => if b = 1 then 1 else 0

/-- A concrete `TimeBinCountType` matching `cntOne`: the particle in
bin 1 has type 0. -/
def cntTOne : ℕ → ℤ → ℤ := fun t b => if t = 0 ∧ b = 1 then 1 else 0

/-- A concrete one-particle state for exercising `apply_half_kick`. -/
def stOne : SimState :=
  { particles := [gasCooling], activeList := [0], PM_start := 32, PM_step := 64 }

/-! ### Helper lemmas about the integer-timeline primitives -/

theorem log2_go_eq : ∀ fuel n : ℕ, n ≤ fuel → log2_go fuel n = Nat.log 2 n := by
  intro fuel
  induction fuel with
  | zero =>
      intro n h
      have hn : n = 0 := by omega
      subst hn
      simp [log2_go, Nat.log_zero_right]
  | succ m ih =>
      intro n h
      simp only [log2_go]
      by_cases h2 : n < 2
      · rw [if_pos h2]
        interval_cases n
        · simp [Nat.log_zero_right]
        · simp [Nat.log_one_right]
      · rw [if_neg h2]
        rw [ih (n / 2) (by omega)]
        have hpos : 0 < Nat.log 2 n := Nat.log_pos (by norm_num) (by omega)
        have hdiv := Nat.log_div_base 2 n
        omega

theorem log2floor_eq (n : ℕ) : log2floor n = Nat.log 2 n :=
  log2_go_eq n n le_rfl

theorem timestep_bin_go_zero : ∀ (fuel : ℕ) (bin : ℤ),
    timestep_bin_go fuel 0 bin = bin := by
  intro fuel bin
  cases fuel <;> simp [timestep_bin_go]

theorem timestep_bin_go_eq : ∀ (fuel dti : ℕ) (bin : ℤ), 1 ≤ dti → dti ≤ fuel →
    timestep_bin_go fuel dti bin = bin + 1 + Nat.log 2 dti := by
  intro fuel
  induction fuel with
  | zero => intro dti bin h1 h2; omega
  | succ m ih =>
      intro dti bin h1 h2
      simp only [timestep_bin_go]
      rw [if_neg (by omega)]
      by_cases hd : dti = 1
      · subst hd
        norm_num [timestep_bin_go_zero, Nat.log_one_right]
      · have h2d : 2 ≤ dti := by omega
        rw [ih (dti / 2) (bin + 1) (by omega) (by omega)]
        have hpos : 0 < Nat.log 2 dti := Nat.log_pos (by norm_num) h2d
        have hdiv := Nat.log_div_base 2 dti
        omega

theorem get_timestep_bin_pow (k : ℕ) (hk : 1 ≤ k) :
    get_timestep_bin (2 ^ k) = k := by
  have h2 : 2 ≤ 2 ^ k := by
    calc 2 = 2 ^ 1 := by norm_num
    _ ≤ 2 ^ k := Nat.pow_le_pow_right (by norm_num) hk
  unfold get_timestep_bin
  rw [if_neg (by omega), if_neg (by omega)]
  rw [timestep_bin_go_eq _ _ _ (by omega) le_rfl]
  rw [Nat.log_pow (by norm_num)]
  ring

theorem round_down_eq (x : ℕ) (hx : x ≠ 0) :
    round_down_power_of_two x = 2 ^ Nat.log 2 x := by
  unfold round_down_power_of_two
  rw [if_neg hx, log2floor_eq]

theorem walk_down_go_spec : ∀ (fuel : ℕ) (active : ℤ → Bool) (binold bin : ℤ),
    binold ≤ bin → (bin - binold).toNat ≤ fuel →
    binold ≤ walk_down_go fuel active binold bin ∧
    walk_down_go fuel active binold bin ≤ bin ∧
    (binold < walk_down_go fuel active binold bin →
      active (walk_down_go fuel active binold bin) = true) := by
  intro fuel
  induction fuel with
  | zero =>
      intro active binold bin h1 h2
      have hb : bin = binold := by omega
      subst hb
      exact ⟨le_rfl, le_rfl, fun h => absurd h (lt_irrefl _)⟩
  | succ m ih =>
      intro active binold bin h1 h2
      simp only [walk_down_go]
      by_cases hc : active bin = false ∧ binold < bin
      · rw [if_pos hc]
        obtain ⟨a, b, c⟩ := ih active binold (bin - 1) (by omega) (by omega)
        exact ⟨a, by omega, c⟩
      · rw [if_neg hc]
        refine ⟨h1, le_rfl, fun hlt => ?_⟩
        rcases Bool.eq_false_or_eq_true (active bin) with hb | hb
        · exact hb
        · exact absurd ⟨hb, hlt⟩ hc

theorem walk_down_spec (active : ℤ → Bool) (binold bin : ℤ) (h : binold ≤ bin) :
    binold ≤ walk_down active binold bin ∧ walk_down active binold bin ≤ bin ∧
    (binold < walk_down active binold bin →
      active (walk_down active binold bin) = true) :=
  walk_down_go_spec _ active binold bin h le_rfl

theorem get_kick_ti_dtiOfBin (x : ℕ) (b : ℤ) :
    get_kick_ti x (dtiOfBin b) = get_kick_ti x (2 ^ b.toNat) := by
  unfold get_kick_ti dtiOfBin
  by_cases hb : b = 0
  · subst hb; norm_num
  · rw [if_neg hb]

/-- After rounding and the guard, the step `dti` and the bin `b` give
the same kick midpoint: `dti/2 = 2^b / 2` (the bad-step case
`dtiRaw = 1`, which yields bin `-1`, is excluded). -/
theorem new_bin_dti_kick (active : ℤ → Bool) (binold : ℤ) (dtiRaw : ℕ)
    (h1 : dtiRaw ≠ 1) (x : ℕ) :
    get_kick_ti x (new_bin_dti active binold dtiRaw).2 =
    get_kick_ti x (2 ^ (new_bin_dti active binold dtiRaw).1.toNat) := by
  simp only [new_bin_dti]
  by_cases hg : binold < get_timestep_bin (round_down_power_of_two dtiRaw)
  · rw [if_pos hg]
    exact get_kick_ti_dtiOfBin x _
  · rw [if_neg hg]
    rcases Nat.eq_zero_or_pos dtiRaw with h0 | hpos
    · subst h0
      norm_num [round_down_power_of_two, get_timestep_bin, get_kick_ti]
    · have h2 : 2 ≤ dtiRaw := by omega
      have hk : 1 ≤ Nat.log 2 dtiRaw := Nat.log_pos (by norm_num) h2
      rw [round_down_eq dtiRaw (by omega), get_timestep_bin_pow _ hk]
      rw [Int.toNat_natCast]

/-! ### C8: `get_timestep_bin` on powers of two -/

/-- C8 counterexample: the claim includes `b = 0`, i.e.
`get_timestep_bin(2^0) == 0`; but the source returns `-1` for
`dti == 1` (timestep.c:664-667). -/
theorem c8_pow_zero_counterexample : ¬ get_timestep_bin (2 ^ 0) = 0 := by decide

/-- C8 (amended): for every bin index `b ≥ 1`,
`get_timestep_bin(2^b) = b`, and `get_timestep_bin(0) = 0`; the case
`b = 0` fails because `get_timestep_bin(1) = -1` (a flagged bad
step). -/
theorem c8_timestep_bin (b : ℕ) (hb : 1 ≤ b) :
    get_timestep_bin (2 ^ b) = b ∧ get_timestep_bin 0 = 0 :=
  ⟨get_timestep_bin_pow b hb, rfl⟩

theorem c8_timestep_bin_witness :
    1 ≤ 7 ∧ (get_timestep_bin (2 ^ 7) = (7 : ℕ) ∧ get_timestep_bin 0 = 0) :=
  ⟨by norm_num, c8_timestep_bin 7 (by norm_num)⟩

/-! ### C10: `get_short_kick_time` -/

/-- C10: `get_short_kick_time(i)` is the midpoint
`Ti_begstep + 2^(TimeBin-1)` of the particle's current step when
`TimeBin ≥ 1`, and `Ti_begstep` itself when `TimeBin = 0` (step size 0
for bin 0). -/
theorem c10_short_kick_time (p : Particle) :
    (1 ≤ p.TimeBin →
      get_short_kick_time p = p.Ti_begstep + 2 ^ (p.TimeBin.toNat - 1)) ∧
    (p.TimeBin = 0 → get_short_kick_time p = p.Ti_begstep) := by
  constructor
  · intro h
    unfold get_short_kick_time get_kick_ti dtiOfBin
    rw [if_neg (by omega)]
    have h2 : 2 ^ p.TimeBin.toNat / 2 = 2 ^ (p.TimeBin.toNat - 1) := by
      have hp := pow_succ 2 (p.TimeBin.toNat - 1)
      have hk : p.TimeBin.toNat - 1 + 1 = p.TimeBin.toNat := by omega
      rw [hk] at hp
      omega
    rw [h2]
  · intro h
    unfold get_short_kick_time get_kick_ti dtiOfBin
    rw [if_pos h]
    simp

theorem c10_short_kick_time_witness :
    1 ≤ dmParticle.TimeBin ∧
    get_short_kick_time dmParticle =
      dmParticle.Ti_begstep + 2 ^ (dmParticle.TimeBin.toNat - 1) :=
  ⟨by decide, (c10_short_kick_time dmParticle).1 (by decide)⟩

/-! ### C1: kick interval and `Ti_begstep` advance -/

/-- C1: for an active particle with old bin `binold` and new bin
`b = (advance_particle …).1` (after rounding and the upward guard), the
short-range kick interval is `tistart = get_kick_ti(Ti_begstep, 2^binold)`
to `tiend = get_kick_ti(Ti_begstep + dti_old, 2^b)` — or
`Ti_begstep + dti_old` when `do_half_kick` — and `Ti_begstep` advances
by exactly `dti_old = dtiOfBin binold` (0 for bin 0).  The bad-step
case `dtiRaw = 1` (bin `-1`) is excluded. -/
theorem c1_kick_interval (active : ℤ → Bool) (doHalfKick : Bool) (dtiRaw : ℕ)
    (binold : ℤ) (tibeg : ℕ) (h1 : dtiRaw ≠ 1) :
    (advance_particle active doHalfKick dtiRaw binold tibeg).2.1 =
      get_kick_ti tibeg (2 ^ binold.toNat) ∧
    (advance_particle active doHalfKick dtiRaw binold tibeg).2.2.1 =
      (if doHalfKick then tibeg + dtiOfBin binold
       else get_kick_ti (tibeg + dtiOfBin binold)
         (2 ^ (advance_particle active doHalfKick dtiRaw binold tibeg).1.toNat)) ∧
    (advance_particle active doHalfKick dtiRaw binold tibeg).2.2.2 =
      tibeg + dtiOfBin binold := by
  refine ⟨?_, ?_, rfl⟩
  · exact get_kick_ti_dtiOfBin tibeg binold
  · have h2 := new_bin_dti_kick active binold dtiRaw h1 (tibeg + dtiOfBin binold)
    cases doHalfKick
    · simpa [advance_particle] using h2
    · simp [advance_particle]

theorem c1_kick_interval_witness :
    (8 : ℕ) ≠ 1 ∧
    ((advance_particle (fun _ => true) false 8 2 100).2.1 =
        get_kick_ti 100 (2 ^ (2 : ℤ).toNat) ∧
     (advance_particle (fun _ => true) false 8 2 100).2.2.1 =
       (if false then 100 + dtiOfBin 2
        else get_kick_ti (100 + dtiOfBin 2)
          (2 ^ (advance_particle (fun _ => true) false 8 2 100).1.toNat)) ∧
     (advance_particle (fun _ => true) false 8 2 100).2.2.2 = 100 + dtiOfBin 2) :=
  ⟨by decide, c1_kick_interval (fun _ => true) false 8 2 100 (by decide)⟩

/-! ### C4: the upward-movement guard -/

/-- C4: a particle never moves to a higher bin that is currently
inactive — whenever the final bin exceeds the old one, that bin is
active; and in the concrete scenario of the spec (bin 3 requests bin 6
while only bins 0-4 are active, `dtiRaw = 64`) the final bin is 4. -/
theorem c4_upward_guard (active : ℤ → Bool) (doHalfKick : Bool) (dtiRaw : ℕ)
    (binold : ℤ) (tibeg : ℕ) :
    (binold < (advance_particle active doHalfKick dtiRaw binold tibeg).1 →
      active (advance_particle active doHalfKick dtiRaw binold tibeg).1 = true) ∧
    (advance_particle (fun b => decide (b ≤ 4)) false 64 3 0).1 = 4 := by
  constructor
  · show binold < (new_bin_dti active binold dtiRaw).1 →
      active (new_bin_dti active binold dtiRaw).1 = true
    simp only [new_bin_dti]
    by_cases hg : binold < get_timestep_bin (round_down_power_of_two dtiRaw)
    · rw [if_pos hg]
      intro hlt
      obtain ⟨-, -, hc⟩ := walk_down_spec active binold _ (le_of_lt hg)
      exact hc hlt
    · rw [if_neg hg]
      intro hlt
      exact absurd hlt hg
  · decide

theorem c4_upward_guard_witness :
    ((fun _ => true : ℤ → Bool)
        ((advance_particle (fun _ => true) false 4 0 0).1) = true) ∧
    (advance_particle (fun b => decide (b ≤ 4)) false 64 3 0).1 = 4 :=
  ⟨(c4_upward_guard (fun _ => true) false 4 0 0).1 (by decide),
   (c4_upward_guard (fun _ => true) false 4 0 0).2⟩

/-! ### C2: `find_next_kick` and the bin-0 immediate sync -/

/-- The next kick time of a nonempty bin lies strictly above the masked
current time. -/
theorem lt_next_for_bin (low n : ℕ) : low < next_for_bin low n :=
  Nat.lt_div_mul_add (by positivity)

/-- The bin loop of `find_next_kick` never lowers an accumulator that
is at most the masked current time. -/
theorem next_kick_fold_ge (count : ℕ → ℤ) (low : ℕ) :
    ∀ (l : List ℕ) (acc : ℕ), acc ≤ low →
      l.foldl (next_kick_step count low) acc = acc := by
  intro l
  induction l with
  | nil => intro acc _; rfl
  | cons n t ih =>
      intro acc hacc
      simp only [List.foldl_cons]
      have hstep : next_kick_step count low acc n = acc := by
        unfold next_kick_step
        have hlt := lt_next_for_bin low n
        split_ifs with hcnt hc
        · omega
        · rfl
        · rfl
      rw [hstep]
      exact ih acc hacc

/-- C2 counterexample: the claim says the bin-0 seed forces the local
next-kick value to equal `Ti_Current` even when the snapshot bits above
`TIMEBASE` are nonzero.  With `TIMEBASE = 2^29`, `Ti_Current = 2^29`
(snapshot bits nonzero, masked clock 0) and only bin 0 populated, the
code seeds with the unmasked `Ti_Current` before masking
(timestep.c:768-774) and then re-adds the snapshot bits, producing
`2^30 ≠ 2^29`. -/
theorem c2_snapshot_counterexample :
    ¬ find_next_kick_local 29 29 count_bin0 (2 ^ 29) = 2 ^ 29 := by decide

/-- C2 (amended): `find_next_kick` seeds the candidate with the
*unmasked* `Ti_Current` before removing the snapshot bits, then takes
the minimum over the populated bins and re-adds the snapshot bits;
consequently the immediate sync (local value `= Ti_Current` whenever
bin 0 is populated) holds for every `Ti_Current` whose snapshot bits
are zero, i.e. `Ti_Current < TIMEBASE`. -/
theorem c2_next_kick_bin0 (tb timebins : ℕ) (count : ℕ → ℤ) (TiCurrent : ℕ)
    (h0 : count 0 ≠ 0) (hlt : TiCurrent < 2 ^ tb) :
    find_next_kick_local tb timebins count TiCurrent = TiCurrent := by
  show (List.range' 1 (timebins - 1)).foldl
      (next_kick_step count (TiCurrent % 2 ^ tb))
      (if count 0 ≠ 0 then TiCurrent else 2 ^ tb) +
    TiCurrent / 2 ^ tb * 2 ^ tb = TiCurrent
  rw [if_pos h0, Nat.div_eq_of_lt hlt, Nat.mod_eq_of_lt hlt,
    next_kick_fold_ge count TiCurrent _ TiCurrent le_rfl]
  simp

theorem c2_next_kick_bin0_witness :
    count_bin0 0 ≠ 0 ∧ 7 < 2 ^ 4 ∧ find_next_kick_local 4 5 count_bin0 7 = 7 :=
  ⟨by decide, by decide, c2_next_kick_bin0 4 5 count_bin0 7 (by decide) (by decide)⟩

/-! ### C6: range of `get_timestep_ti` -/

/-- C6 counterexample: the claim says `get_timestep_ti` always returns
`dti ∈ [1, dti_max]`; but when the particle's `dloga` converts to zero
ticks the function returns 0 (flagged as a bad step at
timestep.c:528-535 but returned unchanged). -/
theorem c6_zero_step_counterexample :
    ¬ 1 ≤ get_timestep_ti true 0 fdti29 0 8 := by
  have h : get_timestep_ti true 0 fdti29 0 8 = 0 := by
    norm_num [get_timestep_ti, fdti29, dti_from_dloga]
  omega

/-- C6 (amended): `get_timestep_ti(p, dti_max)` always returns at most
`dti_max`, and returns exactly `dti_max` when tree gravity is off; but
the lower bound `1 ≤ dti` can fail (such values are flagged as bad
steps, which terminate the run only later, in
`advance_and_find_timesteps`). -/
theorem c6_timestep_ti (TreeGravOn : Bool) (MinSizeTimestep : ℚ) (fdti : ℚ → ℕ)
    (dlogaP : ℚ) (dtiMax : ℕ) (hmax : 1 ≤ dtiMax) :
    get_timestep_ti TreeGravOn MinSizeTimestep fdti dlogaP dtiMax ≤ dtiMax ∧
    (TreeGravOn = false →
      get_timestep_ti TreeGravOn MinSizeTimestep fdti dlogaP dtiMax = dtiMax) := by
  constructor
  · simp only [get_timestep_ti]
    split_ifs <;> omega
  · intro h
    simp only [get_timestep_ti]
    split_ifs with h1
    · omega
    · rfl

theorem c6_timestep_ti_witness :
    1 ≤ 8 ∧ get_timestep_ti false 0 fdti29 0 8 ≤ 8 ∧
    get_timestep_ti false 0 fdti29 0 8 = 8 :=
  ⟨by norm_num, (c6_timestep_ti false 0 fdti29 0 8 (by norm_num)).1,
   (c6_timestep_ti false 0 fdti29 0 8 (by norm_num)).2 rfl⟩

/-! ### C3: the entropy invariant after a short-range kick -/

theorem ent_halfstep_nonneg (E D dt_entr : ℚ) (hE : 0 ≤ E) :
    0 ≤ ent_halfstep E D dt_entr := by
  unfold ent_halfstep
  split_ifs with h
  · linarith
  · push_neg at h
    linarith

theorem ent_floor_nonneg (ctx : Ctx) (eomd E D : ℚ) (hE : 0 ≤ E) :
    0 ≤ (ent_floor ctx eomd E D).1 := by
  simp only [ent_floor]
  split_ifs with h1 h2
  · exact le_trans hE (le_of_lt h2)
  · exact hE
  · exact hE

theorem ent_clamp_spec (dtn E D : ℚ) (hE : 0 ≤ E) :
    (ent_clamp dtn E D).1 = E ∧ -(1/2) * E ≤ (ent_clamp dtn E D).2 * dtn := by
  unfold ent_clamp
  split_ifs with h
  · refine ⟨rfl, ?_⟩
    have hd : dtn ≠ 0 := by
      intro h0
      rw [h0, mul_zero] at h
      linarith
    rw [div_mul_cancel₀ _ hd]
  · exact ⟨rfl, le_of_not_lt h⟩

theorem kick_entropy_spec (ctx : Ctx) (dt_entr : ℚ) (bin : ℤ) (E D eomd : ℚ)
    (hE : 0 ≤ E) :
    0 ≤ (kick_entropy ctx dt_entr bin E D eomd).1 ∧
    -(1/2) * (kick_entropy ctx dt_entr bin E D eomd).1 ≤
      (kick_entropy ctx dt_entr bin E D eomd).2 * (ctx.dloga_for_bin bin / 2) := by
  have h1 := ent_halfstep_nonneg E D dt_entr hE
  have h2 := ent_floor_nonneg ctx eomd (ent_halfstep E D dt_entr) D h1
  obtain ⟨hc1, hc2⟩ := ent_clamp_spec (ctx.dloga_for_bin bin / 2)
    (ent_floor ctx eomd (ent_halfstep E D dt_entr) D).1
    (ent_floor ctx eomd (ent_halfstep E D dt_entr) D).2 h2
  show 0 ≤ (ent_clamp (ctx.dloga_for_bin bin / 2)
      (ent_floor ctx eomd (ent_halfstep E D dt_entr) D).1
      (ent_floor ctx eomd (ent_halfstep E D dt_entr) D).2).1 ∧
    -(1/2) * (ent_clamp (ctx.dloga_for_bin bin / 2)
      (ent_floor ctx eomd (ent_halfstep E D dt_entr) D).1
      (ent_floor ctx eomd (ent_halfstep E D dt_entr) D).2).1 ≤
    (ent_clamp (ctx.dloga_for_bin bin / 2)
      (ent_floor ctx eomd (ent_halfstep E D dt_entr) D).1
      (ent_floor ctx eomd (ent_halfstep E D dt_entr) D).2).2 *
      (ctx.dloga_for_bin bin / 2)
  rw [hc1]
  exact ⟨h2, hc2⟩

/-- C3 counterexample: the claim bounds
`|DtEntropy * dloga_for_bin(TimeBin)/2|` for *every* sign of
`DtEntropy`.  After a kick on the gas particle `gasHeating`
(`Entropy = 1`, `DtEntropy = 100`, half-step `1`), the bound fails:
the code clamps only the cooling direction (timestep.c:385-386). -/
theorem c3_abs_counterexample :
    gasHeating.ptype = 0 ∧ 0 ≤ gasHeating.Entropy ∧
    ¬ (|(do_the_short_range_kick ctxA 0 1 gasHeating).DtEntropy *
          (ctxA.dloga_for_bin
            (do_the_short_range_kick ctxA 0 1 gasHeating).TimeBin / 2)| ≤
        (1/2) * (do_the_short_range_kick ctxA 0 1 gasHeating).Entropy) := by
  refine ⟨rfl, by norm_num [gasHeating], ?_⟩
  norm_num [do_the_short_range_kick, ctxA, gasHeating, kick_entropy,
    ent_halfstep, ent_floor, ent_clamp, vadd, vscale, sqnorm]

/-- C3 (amended): after every short-range kick on a gas particle with
nonnegative entropy, `Entropy ≥ 0` holds and the *one-sided* look-ahead
bound holds: `DtEntropy * dloga_for_bin(TimeBin)/2 ≥ -0.5 * Entropy`
(the code clamps only the cooling direction; positive `DtEntropy` is
unbounded). -/
theorem c3_entropy_bound (ctx : Ctx) (tistart tiend : ℕ) (p : Particle)
    (hgas : p.ptype = 0) (hE : 0 ≤ p.Entropy) :
    0 ≤ (do_the_short_range_kick ctx tistart tiend p).Entropy ∧
    -(1/2) * (do_the_short_range_kick ctx tistart tiend p).Entropy ≤
      (do_the_short_range_kick ctx tistart tiend p).DtEntropy *
        (ctx.dloga_for_bin
          (do_the_short_range_kick ctx tistart tiend p).TimeBin / 2) := by
  have hgoal := kick_entropy_spec ctx (ctx.dloga_from_dti (tiend - tistart))
    p.TimeBin p.Entropy p.DtEntropy p.EOMDensity hE
  have he : (do_the_short_range_kick ctx tistart tiend p).Entropy =
      (kick_entropy ctx (ctx.dloga_from_dti (tiend - tistart)) p.TimeBin
        p.Entropy p.DtEntropy p.EOMDensity).1 := by
    simp [do_the_short_range_kick, hgas]
  have hd : (do_the_short_range_kick ctx tistart tiend p).DtEntropy =
      (kick_entropy ctx (ctx.dloga_from_dti (tiend - tistart)) p.TimeBin
        p.Entropy p.DtEntropy p.EOMDensity).2 := by
    simp [do_the_short_range_kick, hgas]
  have ht : (do_the_short_range_kick ctx tistart tiend p).TimeBin = p.TimeBin := by
    simp [do_the_short_range_kick, hgas]
  rw [he, hd, ht]
  exact hgoal

theorem c3_entropy_bound_witness :
    gasCooling.ptype = 0 ∧ 0 ≤ gasCooling.Entropy ∧
    (0 ≤ (do_the_short_range_kick ctxA 0 1 gasCooling).Entropy ∧
     -(1/2) * (do_the_short_range_kick ctxA 0 1 gasCooling).Entropy ≤
       (do_the_short_range_kick ctxA 0 1 gasCooling).DtEntropy *
         (ctxA.dloga_for_bin
           (do_the_short_range_kick ctxA 0 1 gasCooling).TimeBin / 2)) :=
  ⟨rfl, by decide, c3_entropy_bound ctxA 0 1 gasCooling rfl (by decide)⟩

/-! ### C5: bin accounting -/

theorem updateAt_apply (f : ℤ → ℤ) (i d b : ℤ) :
    updateAt f i d b = f b + (if b = i then d else 0) := by
  unfold updateAt
  by_cases hb : b = i <;> simp [hb]

theorem sum_updateAt (s : Finset ℤ) (f : ℤ → ℤ) (i d : ℤ) (hi : i ∈ s) :
    (∑ b ∈ s, updateAt f i d b) = (∑ b ∈ s, f b) + d := by
  simp only [updateAt_apply]
  rw [Finset.sum_add_distrib, Finset.sum_ite_eq' s i (fun _ => d), if_pos hi]

theorem rebuild_go_cnt_sum (activeB : ℤ → Bool) (s : Finset ℤ) :
    ∀ (ps : List Particle) (i : ℕ) (r : BinRegistry),
      (∀ p ∈ ps, p.TimeBin ∈ s) →
      (∑ b ∈ s, (rebuild_go activeB i ps r).cnt b) =
        (∑ b ∈ s, r.cnt b) + ps.length := by
  intro ps
  induction ps with
  | nil => intro i r _; simp [rebuild_go]
  | cons p t ih =>
      intro i r h
      simp only [rebuild_go, List.length_cons]
      rw [ih (i + 1) _ (fun q hq => h q (List.mem_cons_of_mem p hq))]
      have hx := sum_updateAt s r.cnt p.TimeBin 1 (h p (List.mem_cons_self p t))
      simp only [rebuild_step]
      rw [hx]
      push_cast
      ring

theorem rebuild_go_cntT (activeB : ℤ → Bool) :
    ∀ (ps : List Particle) (i : ℕ) (r : BinRegistry),
      (∀ p ∈ ps, p.ptype < 6) →
      (∀ b, (∑ t ∈ Finset.range 6, r.cntT t b) = r.cnt b) →
      ∀ b, (∑ t ∈ Finset.range 6, (rebuild_go activeB i ps r).cntT t b) =
        (rebuild_go activeB i ps r).cnt b := by
  intro ps
  induction ps with
  | nil => intro i r _ hinv b; exact hinv b
  | cons p t ih =>
      intro i r h hinv b
      simp only [rebuild_go]
      refine ih (i + 1) _ (fun q hq => h q (List.mem_cons_of_mem p hq)) ?_ b
      intro b2
      simp only [rebuild_step]
      have hsum : ∀ t2 : ℕ,
          (if t2 = p.ptype then updateAt (r.cntT t2) p.TimeBin 1 else r.cntT t2) b2 =
          r.cntT t2 b2 +
            (if t2 = p.ptype then (if b2 = p.TimeBin then (1 : ℤ) else 0) else 0) := by
        intro t2
        by_cases ht : t2 = p.ptype
        · subst ht; simp [updateAt_apply]
        · simp [ht]
      simp only [hsum]
      rw [Finset.sum_add_distrib, hinv b2,
        Finset.sum_ite_eq' (Finset.range 6) p.ptype
          (fun _ => if b2 = p.TimeBin then (1 : ℤ) else 0),
        if_pos (Finset.mem_range.mpr (h p (List.mem_cons_self p t))),
        updateAt_apply]

theorem migrate_cnt_sum (s : Finset ℤ) (cnt : ℤ → ℤ) (cntT : ℕ → ℤ → ℤ)
    (ty : ℕ) (bold bnew : ℤ) (hbo : bold ∈ s) (hbn : bnew ∈ s) :
    (∑ b ∈ s, (migrate_counts cnt cntT ty bold bnew).1 b) = ∑ b ∈ s, cnt b := by
  show (∑ b ∈ s, updateAt (updateAt cnt bold (-1)) bnew 1 b) = _
  rw [sum_updateAt s _ bnew 1 hbn, sum_updateAt s cnt bold (-1) hbo]
  ring

theorem migrate_cntT_sum (cnt : ℤ → ℤ) (cntT : ℕ → ℤ → ℤ) (ty : ℕ) (hty : ty < 6)
    (bold bnew : ℤ)
    (hinv : ∀ b, (∑ t ∈ Finset.range 6, cntT t b) = cnt b) (b : ℤ) :
    (∑ t ∈ Finset.range 6, (migrate_counts cnt cntT ty bold bnew).2 t b) =
      (migrate_counts cnt cntT ty bold bnew).1 b := by
  show (∑ t ∈ Finset.range 6,
      (if t = ty then updateAt (updateAt (cntT t) bold (-1)) bnew 1 else cntT t) b) =
    updateAt (updateAt cnt bold (-1)) bnew 1 b
  have hsum : ∀ t2 : ℕ,
      (if t2 = ty then updateAt (updateAt (cntT t2) bold (-1)) bnew 1 else cntT t2) b =
      cntT t2 b + (if t2 = ty then
        ((if b = bold then (-1 : ℤ) else 0) + (if b = bnew then (1 : ℤ) else 0)) else 0) := by
    intro t2
    by_cases ht : t2 = ty
    · subst ht; simp [updateAt_apply]; ring
    · simp [ht]
  simp only [hsum]
  rw [Finset.sum_add_distrib, hinv b,
    Finset.sum_ite_eq' (Finset.range 6) ty
      (fun _ => (if b = bold then (-1 : ℤ) else 0) + (if b = bnew then (1 : ℤ) else 0)),
    if_pos (Finset.mem_range.mpr hty), updateAt_apply, updateAt_apply]
  ring

/-- C5: `rebuild_activelist` establishes the bin accounting — over any
index set `s` containing every particle's bin (the code's
`[0, TIMEBINS)`), the bin counts sum to the number of particles, and
the per-type counts sum to the per-bin counts — and the bin migration
of `advance_and_find_timesteps` (paired decrement/increment of the old
and new bins, globally and per type) preserves both equalities. -/
theorem c5_bin_accounting (s : Finset ℤ) (activeB : ℤ → Bool) (ps : List Particle)
    (hbin : ∀ p ∈ ps, p.TimeBin ∈ s) (htype : ∀ p ∈ ps, p.ptype < 6)
    (cnt : ℤ → ℤ) (cntT : ℕ → ℤ → ℤ) (ty : ℕ) (bold bnew : ℤ)
    (hty : ty < 6) (hbo : bold ∈ s) (hbn : bnew ∈ s)
    (hinv : ∀ b, (∑ t ∈ Finset.range 6, cntT t b) = cnt b) :
    ((∑ b ∈ s, (rebuild_activelist activeB ps).cnt b) = ps.length) ∧
    (∀ b, (∑ t ∈ Finset.range 6, (rebuild_activelist activeB ps).cntT t b) =
      (rebuild_activelist activeB ps).cnt b) ∧
    ((∑ b ∈ s, (migrate_counts cnt cntT ty bold bnew).1 b) = ∑ b ∈ s, cnt b) ∧
    (∀ b, (∑ t ∈ Finset.range 6, (migrate_counts cnt cntT ty bold bnew).2 t b) =
      (migrate_counts cnt cntT ty bold bnew).1 b) := by
  refine ⟨?_, ?_, migrate_cnt_sum s cnt cntT ty bold bnew hbo hbn,
    fun b => migrate_cntT_sum cnt cntT ty hty bold bnew hinv b⟩
  · have hx := rebuild_go_cnt_sum activeB s ps 0 ⟨fun _ => 0, fun _ _ => 0, []⟩ hbin
    simpa [rebuild_activelist] using hx
  · intro b
    exact rebuild_go_cntT activeB ps 0 ⟨fun _ => 0, fun _ _ => 0, []⟩ htype
      (by simp) b

theorem c5_bin_accounting_witness :
    ((∑ b ∈ Finset.Icc (0 : ℤ) 2,
        (rebuild_activelist (fun _ => true) psTwo).cnt b) = psTwo.length) ∧
    ((∑ t ∈ Finset.range 6, (rebuild_activelist (fun _ => true) psTwo).cntT t 1) =
      (rebuild_activelist (fun _ => true) psTwo).cnt 1) ∧
    ((∑ b ∈ Finset.Icc (0 : ℤ) 2, (migrate_counts cntOne cntTOne 0 1 2).1 b) =
      ∑ b ∈ Finset.Icc (0 : ℤ) 2, cntOne b) ∧
    ((∑ t ∈ Finset.range 6, (migrate_counts cntOne cntTOne 0 1 2).2 t 1) =
      (migrate_counts cntOne cntTOne 0 1 2).1 1) := by
  have h := c5_bin_accounting (Finset.Icc (0 : ℤ) 2) (fun _ => true) psTwo
    (by decide) (by decide) cntOne cntTOne 0 1 2 (by decide) (by decide) (by decide)
    (by
      intro b
      by_cases hb : b = (1 : ℤ)
      · subst hb; decide
      · simp [cntOne, cntTOne, hb])
  exact ⟨h.1, h.2.1 1, h.2.2.1, h.2.2.2 1⟩

/-! ### C7: frame effects of `apply_half_kick` -/

/-- The short-range kick changes only `Vel`, `Entropy` and `DtEntropy`:
`Ti_begstep` and `TimeBin` are untouched. -/
theorem short_kick_fields (ctx : Ctx) (a b : ℕ) (p : Particle) :
    (do_the_short_range_kick ctx a b p).Ti_begstep = p.Ti_begstep ∧
    (do_the_short_range_kick ctx a b p).TimeBin = p.TimeBin := by
  simp only [do_the_short_range_kick]
  split_ifs <;> exact ⟨rfl, rfl⟩

theorem half_kick_claimed_congr (ps ps2 : List Particle) (i : ℕ)
    (h : (ps2[i]?).map (fun p => (p.Ti_begstep, p.TimeBin)) =
         (ps[i]?).map (fun p => (p.Ti_begstep, p.TimeBin))) :
    half_kick_claimed ps2 i = half_kick_claimed ps i := by
  unfold half_kick_claimed
  cases h2 : ps2[i]? with
  | none =>
      cases h1 : ps[i]? with
      | none => rfl
      | some q => rw [h2, h1] at h; simp at h
  | some q =>
      cases h1 : ps[i]? with
      | none => rw [h2, h1] at h; simp at h
      | some q2 =>
          rw [h2, h1] at h
          simp only [Option.map_some', Option.some.injEq, Prod.mk.injEq] at h
          obtain ⟨ha, hb⟩ := h
          show (q.Ti_begstep, get_kick_ti q.Ti_begstep (2 ^ q.TimeBin.toNat)) =
            (q2.Ti_begstep, get_kick_ti q2.Ti_begstep (2 ^ q2.TimeBin.toNat))
          rw [ha, hb]

theorem half_kick_fold_spec (ctx : Ctx) :
    ∀ (l : List ℕ) (ps : List Particle) (lg : List (ℕ × ℕ)),
      (∀ i ∈ l, i < ps.length) →
      ((l.foldl (half_kick_step ctx) (ps, lg)).1.length = ps.length ∧
       (∀ j : ℕ, ((l.foldl (half_kick_step ctx) (ps, lg)).1[j]?).map
           (fun p => (p.Ti_begstep, p.TimeBin)) =
         (ps[j]?).map (fun p => (p.Ti_begstep, p.TimeBin))) ∧
       (l.foldl (half_kick_step ctx) (ps, lg)).2 =
         lg ++ l.map (half_kick_claimed ps)) := by
  intro l
  induction l with
  | nil => intro ps lg _; exact ⟨rfl, fun _ => rfl, by simp⟩
  | cons i t ih =>
      intro ps lg h
      have hi : i < ps.length := h i (List.mem_cons_self i t)
      have hp : ps[i]? = some ps[i] := List.getElem?_eq_getElem hi
      simp only [List.foldl_cons]
      have hstep : half_kick_step ctx (ps, lg) i =
          (ps.set i (do_the_short_range_kick ctx ps[i].Ti_begstep
              (get_kick_ti ps[i].Ti_begstep (dtiOfBin ps[i].TimeBin)) ps[i]),
           lg ++ [(ps[i].Ti_begstep,
              get_kick_ti ps[i].Ti_begstep (dtiOfBin ps[i].TimeBin))]) := by
        unfold half_kick_step
        rw [hp]
      rw [hstep]
      have hset : ∀ j : ℕ,
          ((ps.set i (do_the_short_range_kick ctx ps[i].Ti_begstep
              (get_kick_ti ps[i].Ti_begstep (dtiOfBin ps[i].TimeBin)) ps[i]))[j]?).map
            (fun p => (p.Ti_begstep, p.TimeBin)) =
          (ps[j]?).map (fun p => (p.Ti_begstep, p.TimeBin)) := by
        intro j
        by_cases hj : j = i
        · subst hj
          rw [List.getElem?_set_eq_of_lt _ hi, hp]
          obtain ⟨ha, hb⟩ := short_kick_fields ctx ps[j].Ti_begstep
            (get_kick_ti ps[j].Ti_begstep (dtiOfBin ps[j].TimeBin)) ps[j]
          simp [ha, hb]
        · rw [List.getElem?_set_ne (fun he => hj he.symm)]
      have hlen : (ps.set i (do_the_short_range_kick ctx ps[i].Ti_begstep
          (get_kick_ti ps[i].Ti_begstep (dtiOfBin ps[i].TimeBin)) ps[i])).length =
          ps.length := List.length_set _ _ _
      obtain ⟨ih1, ih2, ih3⟩ := ih
        (ps.set i (do_the_short_range_kick ctx ps[i].Ti_begstep
          (get_kick_ti ps[i].Ti_begstep (dtiOfBin ps[i].TimeBin)) ps[i]))
        (lg ++ [(ps[i].Ti_begstep,
          get_kick_ti ps[i].Ti_begstep (dtiOfBin ps[i].TimeBin))])
        (fun i2 hi2 => by rw [hlen]; exact h i2 (List.mem_cons_of_mem i hi2))
      refine ⟨ih1.trans hlen, fun j => (ih2 j).trans (hset j), ?_⟩
      rw [ih3, List.map_cons]
      have hhead : half_kick_claimed ps i =
          (ps[i].Ti_begstep,
            get_kick_ti ps[i].Ti_begstep (dtiOfBin ps[i].TimeBin)) := by
        unfold half_kick_claimed
        rw [hp]
        rw [get_kick_ti_dtiOfBin]
      have htail : t.map (half_kick_claimed
          (ps.set i (do_the_short_range_kick ctx ps[i].Ti_begstep
            (get_kick_ti ps[i].Ti_begstep (dtiOfBin ps[i].TimeBin)) ps[i]))) =
          t.map (half_kick_claimed ps) :=
        List.map_congr_left (fun i2 _ => half_kick_claimed_congr ps _ i2 (hset i2))
      rw [htail, hhead]
      simp

/-- The long-range kick changes only velocities: lengths, `Ti_begstep`
and `TimeBin` are untouched. -/
theorem long_kick_fields (ctx : Ctx) (a b : ℕ) (ps : List Particle) :
    ∀ j : ℕ, ((do_the_long_range_kick ctx a b ps)[j]?).map
        (fun p => (p.Ti_begstep, p.TimeBin)) =
      (ps[j]?).map (fun p => (p.Ti_begstep, p.TimeBin)) := by
  intro j
  unfold do_the_long_range_kick
  rw [List.getElem?_map]
  cases ps[j]? <;> rfl

/-- C7: `apply_half_kick` passes each active particle the short-range
kick interval `[Ti_begstep, get_kick_ti(Ti_begstep, 2^TimeBin))` and
the long-range kick the interval
`[PM_start, get_kick_ti(PM_start, PM_step))`, while leaving every
particle's `Ti_begstep` and `TimeBin` and the PM super-step variables
unchanged. -/
theorem c7_apply_half_kick (ctx : Ctx) (st : SimState)
    (hidx : ∀ i ∈ st.activeList, i < st.particles.length) :
    (apply_half_kick ctx st).1.PM_start = st.PM_start ∧
    (apply_half_kick ctx st).1.PM_step = st.PM_step ∧
    (apply_half_kick ctx st).2.2 = (st.PM_start, get_kick_ti st.PM_start st.PM_step) ∧
    (apply_half_kick ctx st).2.1 = st.activeList.map (half_kick_claimed st.particles) ∧
    (∀ j : ℕ, ((apply_half_kick ctx st).1.particles[j]?).map
        (fun p => (p.Ti_begstep, p.TimeBin)) =
      (st.particles[j]?).map (fun p => (p.Ti_begstep, p.TimeBin))) := by
  obtain ⟨h1, h2, h3⟩ := half_kick_fold_spec ctx st.activeList st.particles [] hidx
  refine ⟨rfl, rfl, rfl, ?_, ?_⟩
  · show (st.activeList.foldl (half_kick_step ctx) (st.particles, [])).2 = _
    rw [h3]
    simp
  · intro j
    show ((do_the_long_range_kick ctx st.PM_start
        (get_kick_ti st.PM_start st.PM_step)
        (st.activeList.foldl (half_kick_step ctx) (st.particles, [])).1)[j]?).map
        (fun p => (p.Ti_begstep, p.TimeBin)) = _
    rw [long_kick_fields ctx st.PM_start (get_kick_ti st.PM_start st.PM_step) _ j]
    exact h2 j

theorem c7_apply_half_kick_witness :
    ((0 : ℕ) < stOne.particles.length) ∧
    (apply_half_kick ctxA stOne).1.PM_start = stOne.PM_start ∧
    (apply_half_kick ctxA stOne).1.PM_step = stOne.PM_step ∧
    (apply_half_kick ctxA stOne).2.2 =
      (stOne.PM_start, get_kick_ti stOne.PM_start stOne.PM_step) ∧
    (apply_half_kick ctxA stOne).2.1 =
      stOne.activeList.map (half_kick_claimed stOne.particles) ∧
    ((apply_half_kick ctxA stOne).1.particles[0]?).map
        (fun p => (p.Ti_begstep, p.TimeBin)) =
      (stOne.particles[0]?).map (fun p => (p.Ti_begstep, p.TimeBin)) := by
  have h := c7_apply_half_kick ctxA stOne
    (by intro i hi; simp [stOne] at hi; subst hi; simp [stOne])
  exact ⟨by simp [stOne], h.1, h.2.1, h.2.2.1, h.2.2.2.1, h.2.2.2.2 0⟩

end MPGadget
